import Mathlib

/-!
Verification of the jazz browser adapter layer and its cojson interface.

This development shallowly embeds the source of the `jazz-browser` package
(WebSocket peer streams, reconnection loop, invite links, session handles,
binary-stream creation), the `jazz-browser-auth-passphrase` provider, and
the subset of the cojson crypto interface exercised by its tests.  Stateful
browser constructs (timers, event handlers, `navigator.locks`,
`localStorage`) are embedded as explicit state-passing functions; machine
integers are `Nat`; fallible operations return `Option` or `Except`.
-/

namespace Jazz

/-! ## WebSocket readable stream (source: `websocketReadableStream`)

The source installs a `ws.onmessage` handler.  On each message it clears the
pending ping timeout, arms a new 2500 ms timeout whose callback closes the
stream controller and then the WebSocket, and then either swallows the
message (when `msg.type === "ping"`) or enqueues it to the controller.  The
handler state is embedded as a record: the armed deadline (absolute time of
the pending `setTimeout`), the queue of enqueued messages, and the
closed flags of the controller and of the WebSocket. -/

structure WsMsg where
  type : String
  body : String
deriving DecidableEq, Repr

structure WsStreamState where
  pingDeadline : Option Nat
  queue : List WsMsg
  controllerClosed : Bool
  wsClosed : Bool
deriving DecidableEq, Repr

/-- The idle-timeout delay hard-coded in the `setTimeout` call of
`websocketReadableStream` (2500 ms). -/
def pingTimeoutDelayMs : Nat := 2500

/-- The `ws.onmessage` handler: clear the old timeout, arm a new one at
`now + 2500`, then drop the message if it is a ping and enqueue it
otherwise. -/
def onWsMessage (now : Nat) (msg : WsMsg) (s : WsStreamState) : WsStreamState :=
  let s1 := { s with pingDeadline := some (now + pingTimeoutDelayMs) }
  if msg.type = "ping" then s1
  else { s1 with queue := s1.queue ++ [msg] }

/-- The `setTimeout` callback: `controller.close(); ws.close()` inside a
`try`.  When the controller is already closed, `controller.close()` throws
and the `catch` swallows the error, so nothing changes. -/
def onPingTimeoutFire (s : WsStreamState) : WsStreamState :=
  if s.controllerClosed then s
  else { s with controllerClosed := true, wsClosed := true, pingDeadline := none }

/-- C1: every inbound message re-arms the 2.5 s idle timer; the timer
callback closes both the stream controller and the WebSocket; a message of
type "ping" only resets the timer (queue and closed flags untouched) and is
never enqueued, while every other message is appended to the consumer
queue. -/
theorem websocketReadableStream_ping_timer :
    ∀ (s : WsStreamState) (now : Nat) (msg : WsMsg),
      (onWsMessage now msg s).pingDeadline = some (now + 2500)
      ∧ (msg.type = "ping" →
          (onWsMessage now msg s).queue = s.queue
          ∧ (onWsMessage now msg s).controllerClosed = s.controllerClosed
          ∧ (onWsMessage now msg s).wsClosed = s.wsClosed)
      ∧ (msg.type ≠ "ping" →
          (onWsMessage now msg s).queue = s.queue ++ [msg])
      ∧ (s.controllerClosed = false →
          (onPingTimeoutFire s).controllerClosed = true
          ∧ (onPingTimeoutFire s).wsClosed = true) := by
  intro s now msg
  refine ⟨?_, ?_, ?_, ?_⟩
  · by_cases h : msg.type = "ping" <;>
      simp [onWsMessage, h, pingTimeoutDelayMs]
  · intro h; simp [onWsMessage, h]
  · intro h; simp [onWsMessage, h]
  · intro h; simp [onPingTimeoutFire, h]

/-- Witness for C1 at a concrete state: a ping leaves the queue alone, and
firing the timeout on an open controller closes it. -/
theorem websocketReadableStream_ping_timer_witness :
    (onWsMessage 0 ⟨"ping", ""⟩ ⟨none, [], false, false⟩).queue = []
    ∧ (onPingTimeoutFire ⟨none, [], false, false⟩).controllerClosed = true :=
  ⟨((websocketReadableStream_ping_timer ⟨none, [], false, false⟩ 0 ⟨"ping", ""⟩).2.1 rfl).1,
   ((websocketReadableStream_ping_timer ⟨none, [], false, false⟩ 0 ⟨"ping", ""⟩).2.2.2 rfl).1⟩

/-! ## Reconnection loop (source: `createBrowserNode` / `websocketReconnectLoop`)

`createBrowserNode` keeps a mutable `currentReconnectionTimeout`, starting
at the `reconnectionTimeout` option (default 500).  Each iteration of the
reconnect loop that finds the WebSocket peer missing doubles the timeout,
capping it at 30000, and then waits that long.  The persistent "online"
listener resets the timeout to the initial value. -/

structure ReconnectionState where
  currentTimeout : Nat
  initialTimeout : Nat
deriving DecidableEq, Repr

/-- Default of the `reconnectionTimeout` option of `createBrowserNode`. -/
def defaultReconnectionTimeout : Nat := 500

/-- One disconnected iteration of `websocketReconnectLoop`: double the
current timeout capped at 30000, wait that amount, and keep the doubled
value as the new current timeout.  Returns the awaited wait duration and
the updated state. -/
def reconnectWaitStep (s : ReconnectionState) : Nat × ReconnectionState :=
  let t := min (s.currentTimeout * 2) 30000
  (t, { s with currentTimeout := t })

/-- The persistent "online" listener (`onOnline`): reset the current
timeout to the initial reconnection timeout. -/
def onOnlineReset (s : ReconnectionState) : ReconnectionState :=
  { s with currentTimeout := s.initialTimeout }

/-- The wait awaited before the (n+1)-th consecutive failed reconnection
attempt starting from state `s`. -/
def nthReconnectWait (s : ReconnectionState) : Nat → Nat
  | 0 => (reconnectWaitStep s).1
  | n + 1 => nthReconnectWait (reconnectWaitStep s).2 n

theorem nthReconnectWait_succ (s : ReconnectionState) (n : Nat) :
    nthReconnectWait s (n + 1) = min (nthReconnectWait s n * 2) 30000 := by
  induction n generalizing s with
  | zero =>
      simp [nthReconnectWait, reconnectWaitStep]
  | succ n ih =>
      have h1 : nthReconnectWait s (n + 2) = nthReconnectWait (reconnectWaitStep s).2 (n + 1) := rfl
      have h2 : nthReconnectWait s (n + 1) = nthReconnectWait (reconnectWaitStep s).2 n := rfl
      rw [h1, h2, ih]

/-- C2: along every sequence of consecutive failed reconnection attempts,
each wait is the double of the previous current timeout capped at 30000 and
never exceeds 30000 ms; the "online" handler resets the current timeout to
the initial one, whose default is 500 ms. -/
theorem reconnectLoop_backoff :
    ∀ (s : ReconnectionState) (n : Nat),
      (reconnectWaitStep s).1 = min (s.currentTimeout * 2) 30000
      ∧ (reconnectWaitStep s).2.currentTimeout = (reconnectWaitStep s).1
      ∧ nthReconnectWait s (n + 1) = min (nthReconnectWait s n * 2) 30000
      ∧ nthReconnectWait s n ≤ 30000
      ∧ (onOnlineReset s).currentTimeout = s.initialTimeout
      ∧ defaultReconnectionTimeout = 500 := by
  intro s n
  refine ⟨rfl, rfl, nthReconnectWait_succ s n, ?_, rfl, rfl⟩
  cases n with
  | zero => simp [nthReconnectWait, reconnectWaitStep]
  | succ n => rw [nthReconnectWait_succ]; exact Nat.min_le_right _ _

/-! ## Session handles (source: `getSessionHandleFor`)

The source tries the Web Locks keys `accountID + "_" + idx` for
`idx = 0 .. 99`, each slot at most twice (the retry works around React
StrictMode), with `{ ifAvailable: true }`.  On the first acquired slot it
reads `localStorage[accountID + "_" + idx]`, falls back to a freshly minted
random session ID when the stored value is absent (or empty, via JS
truthiness), writes the session ID back to the same key, and resolves the
session promise.  When all 100 slots fail twice it throws.

The embedding passes the environment explicitly: `avail key retry` tells
whether the lock `key` is available at the given retry, `storage` is the
`localStorage` map, and `fresh` is the session ID
`cojsonInternals.newRandomSessionID(accountID)` would mint. -/

/-- The key used both for the Web Lock and for `localStorage`:
`accountID + "_" + idx`. -/
def lockKey (accountID : String) (idx : Nat) : String :=
  accountID ++ "_" ++ toString idx

/-- The nested `for idx / for retry` loop: return the first slot (at most
twice per slot, `remaining` slots from `idx` upward) whose lock request
succeeds. -/
def findSlot (avail : String → Nat → Bool) (accountID : String) :
    Nat → Nat → Option Nat
  | _, 0 => none
  | idx, remaining + 1 =>
      if avail (lockKey accountID idx) 0 || avail (lockKey accountID idx) 1
      then some idx
      else findSlot avail accountID (idx + 1) remaining

/-- `localStorage[accountID + "_" + idx] || newRandomSessionID(accountID)`:
the stored nonce for the slot, or the fresh one when the slot has none
(the empty string is falsy in JS). -/
def sessionForSlot (storage : String → Option String) (fresh : String)
    (accountID : String) (idx : Nat) : String :=
  match storage (lockKey accountID idx) with
  | some s => if s = "" then fresh else s
  | none => fresh

/-- The write-back `localStorage[accountID + "_" + idx] = sessionID`. -/
def storeSession (storage : String → Option String) (accountID : String)
    (idx : Nat) (sessionID : String) : String → Option String :=
  fun k => if k = lockKey accountID idx then some sessionID else storage k

/-- `getSessionHandleFor`, embedded as a function from the environment to
either the thrown error or the resolved slot, session ID, and updated
`localStorage`. -/
def getSessionHandleFor (avail : String → Nat → Bool)
    (storage : String → Option String) (fresh : String) (accountID : String) :
    Except String (Nat × String × (String → Option String)) :=
  match findSlot avail accountID 0 100 with
  | none => .error "could not get lock on session after 100x2 tries"
  | some idx =>
      let sessionID := sessionForSlot storage fresh accountID idx
      .ok (idx, sessionID, storeSession storage accountID idx sessionID)

theorem findSlot_eq_none (avail : String → Nat → Bool) (accountID : String)
    (start n : Nat)
    (h : ∀ k, k < n → avail (lockKey accountID (start + k)) 0 = false
        ∧ avail (lockKey accountID (start + k)) 1 = false) :
    findSlot avail accountID start n = none := by
  induction n generalizing start with
  | zero => rfl
  | succ n ih =>
      have h0 := h 0 (Nat.succ_pos n)
      simp only [Nat.add_zero] at h0
      simp only [findSlot, h0.1, h0.2, Bool.or_false, if_neg Bool.false_ne_true]
      exact ih (start + 1) fun k hk => by
        have := h (k + 1) (Nat.succ_lt_succ hk)
        rwa [show start + (k + 1) = start + 1 + k by omega] at this

theorem findSlot_eq_some (avail : String → Nat → Bool) (accountID : String)
    (start n k : Nat) (hk : k < n)
    (hbefore : ∀ j, j < k → avail (lockKey accountID (start + j)) 0 = false
        ∧ avail (lockKey accountID (start + j)) 1 = false)
    (hhit : avail (lockKey accountID (start + k)) 0 = true
        ∨ avail (lockKey accountID (start + k)) 1 = true) :
    findSlot avail accountID start n = some (start + k) := by
  induction n generalizing start k with
  | zero => exact absurd hk (Nat.not_lt_zero k)
  | succ n ih =>
      cases k with
      | zero =>
          simp only [Nat.add_zero] at hhit
          have hcond : (avail (lockKey accountID start) 0
              || avail (lockKey accountID start) 1) = true := by
            rcases hhit with h | h <;> simp [h]
          simp [findSlot, hcond]
      | succ j =>
          have h0 := hbefore 0 (Nat.succ_pos j)
          simp only [Nat.add_zero] at h0
          simp only [findSlot, h0.1, h0.2, Bool.or_false, if_neg Bool.false_ne_true]
          have heq : start + (j + 1) = (start + 1) + j := by omega
          rw [heq]
          refine ih (start + 1) j (Nat.lt_of_succ_lt_succ hk) ?_ ?_
          · intro i hi
            have := hbefore (i + 1) (Nat.succ_lt_succ hi)
            rwa [show start + (i + 1) = (start + 1) + i by omega] at this
          · rwa [heq] at hhit

/-- C5: the session handle tries the lock keys `accountID_0` through
`accountID_99` in order, each slot at most twice; when every request
fails the handle raises the error, and on the first slot whose lock is
acquired it resolves the stored nonce of that slot, or the freshly minted
random session ID when the slot has none, writing it back to storage. -/
theorem getSessionHandleFor_spec :
    ∀ (avail : String → Nat → Bool) (storage : String → Option String)
      (fresh accountID : String),
      ((∀ i, i < 100 → avail (lockKey accountID i) 0 = false
          ∧ avail (lockKey accountID i) 1 = false) →
        getSessionHandleFor avail storage fresh accountID
          = .error "could not get lock on session after 100x2 tries")
      ∧ (∀ i, i < 100 →
          (∀ j, j < i → avail (lockKey accountID j) 0 = false
              ∧ avail (lockKey accountID j) 1 = false) →
          (avail (lockKey accountID i) 0 = true
              ∨ avail (lockKey accountID i) 1 = true) →
          getSessionHandleFor avail storage fresh accountID
            = .ok (i, sessionForSlot storage fresh accountID i,
                storeSession storage accountID i
                  (sessionForSlot storage fresh accountID i))) := by
  intro avail storage fresh accountID
  constructor
  · intro h
    have : findSlot avail accountID 0 100 = none :=
      findSlot_eq_none avail accountID 0 100 fun k hk => by
        simpa using h k hk
    simp [getSessionHandleFor, this]
  · intro i hi hbefore hhit
    have : findSlot avail accountID 0 100 = some i := by
      have := findSlot_eq_some avail accountID 0 100 i hi
        (fun j hj => by simpa using hbefore j hj) (by simpa using hhit)
      simpa using this
    simp [getSessionHandleFor, this]

/-- Witness for C5: with every lock available and empty storage, slot 0 is
acquired and the fresh session ID resolves. -/
theorem getSessionHandleFor_spec_witness :
    getSessionHandleFor (fun _ _ => true) (fun _ => none) "sess0" "co_zAcc"
      = .ok (0, sessionForSlot (fun _ => none) "sess0" "co_zAcc" 0,
          storeSession (fun _ => none) "co_zAcc" 0
            (sessionForSlot (fun _ => none) "sess0" "co_zAcc" 0)) :=
  (getSessionHandleFor_spec (fun _ _ => true) (fun _ => none) "sess0" "co_zAcc").2
    0 (by omega) (fun j hj => absurd hj (Nat.not_lt_zero j)) (Or.inl rfl)

theorem sessionForSlot_ne_empty (storage : String → Option String)
    (fresh accountID : String) (idx : Nat) (hf : fresh ≠ "") :
    sessionForSlot storage fresh accountID idx ≠ "" := by
  unfold sessionForSlot
  cases storage (lockKey accountID idx) with
  | none => exact hf
  | some s =>
      by_cases hs : s = ""
      · simpa [hs] using hf
      · simp [hs]

theorem getSessionHandleFor_ok_inv (avail : String → Nat → Bool)
    (storage : String → Option String) (fresh accountID : String)
    (idx : Nat) (sid : String) (storage2 : String → Option String)
    (h : getSessionHandleFor avail storage fresh accountID = .ok (idx, sid, storage2)) :
    sid = sessionForSlot storage fresh accountID idx
    ∧ storage2 = storeSession storage accountID idx sid := by
  unfold getSessionHandleFor at h
  cases hf : findSlot avail accountID 0 100 with
  | none => rw [hf] at h; exact absurd h (by simp)
  | some j =>
      rw [hf] at h
      simp only [Except.ok.injEq, Prod.mk.injEq] at h
      obtain ⟨hj, hs, hst⟩ := h
      subst hj; subst hs
      exact ⟨rfl, hst.symm⟩

/-- C6: once a session ID has been resolved for a slot, the session ID is
persisted under the slot key, so any later acquisition of the same slot
over the persisted storage — whatever fresh nonce the second run would
mint — resolves the identical session ID. -/
theorem getSessionFor_deterministic :
    ∀ (avail : String → Nat → Bool) (storage : String → Option String)
      (fresh accountID : String) (idx : Nat) (sid : String)
      (storage2 : String → Option String),
      fresh ≠ "" →
      getSessionHandleFor avail storage fresh accountID = .ok (idx, sid, storage2) →
      (∀ fresh2, sessionForSlot storage2 fresh2 accountID idx = sid)
      ∧ (∀ (avail2 : String → Nat → Bool) (fresh2 sid2 : String)
          (storage3 : String → Option String),
          getSessionHandleFor avail2 storage2 fresh2 accountID
            = .ok (idx, sid2, storage3) →
          sid2 = sid) := by
  intro avail storage fresh accountID idx sid storage2 hf h
  obtain ⟨hsid, hst⟩ := getSessionHandleFor_ok_inv avail storage fresh accountID idx sid storage2 h
  have hne : sid ≠ "" := hsid ▸ sessionForSlot_ne_empty storage fresh accountID idx hf
  have hread : ∀ fresh2, sessionForSlot storage2 fresh2 accountID idx = sid := by
    intro fresh2
    rw [hst]
    simp [sessionForSlot, storeSession, hne]
  refine ⟨hread, ?_⟩
  intro avail2 fresh2 sid2 storage3 h2
  have := (getSessionHandleFor_ok_inv avail2 storage2 fresh2 accountID idx sid2 storage3 h2).1
  rw [this, hread fresh2]

/-- Witness for C6: a first run over empty storage resolves the fresh
session "sess1" at slot 0; re-reading the persisted storage with a
different fresh nonce still yields "sess1". -/
theorem getSessionFor_deterministic_witness :
    sessionForSlot (storeSession (fun _ => none) "co_zAcc" 0 "sess1") "sess2" "co_zAcc" 0
      = "sess1" :=
  (getSessionFor_deterministic (fun _ _ => true) (fun _ => none) "sess1" "co_zAcc" 0
    "sess1" (storeSession (fun _ => none) "co_zAcc" 0 "sess1")
    (by decide) rfl).1 "sess2"

/-! ## Invite links (source: `createInviteLink` / `parseInviteLink`)

URLs are embedded as `List Char`.  `splitOnChar` mirrors the JS
`String.prototype.split` with a one-character separator.  `new URL(u).hash`
is modelled in two layers: `urlHash` extracts the raw fragment — everything
after the first "#", with `hash` empty when the fragment is empty and
`"#" + fragment` otherwise — and `newURLHash` below additionally applies
the WHATWG fragment serialization, which percent-encodes the characters of
the fragment percent-encode set.  On a URL whose fragment is already a
percent-encoded serialization (every fragment read back from a genuine
URL, in particular the base58 invite fragments of this protocol) the two
coincide (`parseInviteLinkEncoded_eq_of_encodeFree`); they differ exactly
when the input string carries raw to-be-encoded characters, as a
`createInviteLink` output can.  `new URL` throwing on an invalid base URL
is outside the embedded domain: the quantified base stands for a valid
absolute URL serialization (the source defaults to `window.location.href`
stripped of its hash). -/

def splitOnChar (sep : Char) : List Char → List (List Char)
  | [] => [[]]
  | c :: rest =>
      if c = sep then [] :: splitOnChar sep rest
      else
        match splitOnChar sep rest with
        | [] => [[c]]
        | p :: ps => (c :: p) :: ps

def urlHash : List Char → List Char
  | [] => []
  | c :: rest =>
      if c = '#' then (if rest = [] then [] else '#' :: rest)
      else urlHash rest

structure InviteParsed where
  valueID : List Char
  valueHint : Option (List Char)
  inviteSecret : List Char
deriving DecidableEq, Repr

/-- The body of `parseInviteLink` applied to `url.hash`: split on "/",
accept `["#", "invite", hint, id, secret]` and `["#", "invite", id,
secret]`, and return `undefined` when `valueID` or `inviteSecret` ends up
missing or empty (JS truthiness). -/
def parseHash (hash : List Char) : Option InviteParsed :=
  match splitOnChar '/' hash with
  | p0 :: p1 :: rest =>
      if p0 = ['#'] ∧ p1 = "invite".toList then
        match rest with
        | [hint, vid, sec] =>
            if vid = [] ∨ sec = [] then none else some ⟨vid, some hint, sec⟩
        | [vid, sec] =>
            if vid = [] ∨ sec = [] then none else some ⟨vid, none, sec⟩
        | _ => none
      else none
  | _ => none

def parseInviteLink (inviteURL : List Char) : Option InviteParsed :=
  parseHash (urlHash inviteURL)

/-- The template literal of `createInviteLink`:
`baseURL + "#/invite/" + (valueHint ? valueHint + "/" : "") + value.id +
"/" + inviteSecret`.  The group walk and `group.createInvite(role)` of the
source only produce the `inviteSecret` embedded here, so the secret is
taken as an input. -/
def createInviteLink (baseURL : List Char) (valueHint : Option (List Char))
    (valueID inviteSecret : List Char) : List Char :=
  baseURL ++ "#/invite/".toList
    ++ (match valueHint with
        | some h => if h = [] then [] else h ++ ['/']
        | none => [])
    ++ valueID ++ ['/'] ++ inviteSecret

theorem splitOnChar_not_mem (sep : Char) (l : List Char) (h : sep ∉ l) :
    splitOnChar sep l = [l] := by
  induction l with
  | nil => rfl
  | cons c rest ih =>
      have hc : ¬ c = sep := fun hc => h (hc ▸ List.mem_cons_self c rest)
      have hrest : sep ∉ rest := fun hr => h (List.mem_cons_of_mem c hr)
      simp only [splitOnChar, if_neg hc, ih hrest]

theorem splitOnChar_sep_append (sep : Char) (a b : List Char) (h : sep ∉ a) :
    splitOnChar sep (a ++ sep :: b) = a :: splitOnChar sep b := by
  induction a with
  | nil => simp [splitOnChar]
  | cons c rest ih =>
      have hc : ¬ c = sep := fun hc => h (hc ▸ List.mem_cons_self c rest)
      have hrest : sep ∉ rest := fun hr => h (List.mem_cons_of_mem c hr)
      simp only [List.cons_append, splitOnChar, if_neg hc, List.append_eq, ih hrest]

theorem urlHash_fragment (base frag : List Char) (hb : '#' ∉ base)
    (hf : frag ≠ []) : urlHash (base ++ '#' :: frag) = '#' :: frag := by
  induction base with
  | nil => simp [urlHash, hf]
  | cons c rest ih =>
      have hc : ¬ c = '#' := fun hc => hb (hc ▸ List.mem_cons_self c rest)
      have hrest : '#' ∉ rest := fun hr => hb (List.mem_cons_of_mem c hr)
      simp only [List.cons_append, urlHash, if_neg hc, List.append_eq, ih hrest]

theorem splitOnChar_invite_five (hint vid sec : List Char)
    (hh : '/' ∉ hint) (hv : '/' ∉ vid) (hs : '/' ∉ sec) :
    splitOnChar '/'
        ('#' :: '/' :: ("invite".toList ++ '/' :: (hint ++ '/' :: (vid ++ '/' :: sec))))
      = [['#'], "invite".toList, hint, vid, sec] := by
  have h0 : splitOnChar '/'
      ('#' :: '/' :: ("invite".toList ++ '/' :: (hint ++ '/' :: (vid ++ '/' :: sec))))
      = ['#'] :: splitOnChar '/' ("invite".toList ++ '/' :: (hint ++ '/' :: (vid ++ '/' :: sec))) :=
    splitOnChar_sep_append '/' ['#'] _ (by decide)
  rw [h0,
    splitOnChar_sep_append '/' "invite".toList _ (by decide),
    splitOnChar_sep_append '/' hint _ hh,
    splitOnChar_sep_append '/' vid _ hv,
    splitOnChar_not_mem '/' sec hs]

theorem splitOnChar_invite_four (vid sec : List Char)
    (hv : '/' ∉ vid) (hs : '/' ∉ sec) :
    splitOnChar '/' ('#' :: '/' :: ("invite".toList ++ '/' :: (vid ++ '/' :: sec)))
      = [['#'], "invite".toList, vid, sec] := by
  have h0 : splitOnChar '/' ('#' :: '/' :: ("invite".toList ++ '/' :: (vid ++ '/' :: sec)))
      = ['#'] :: splitOnChar '/' ("invite".toList ++ '/' :: (vid ++ '/' :: sec)) :=
    splitOnChar_sep_append '/' ['#'] _ (by decide)
  rw [h0,
    splitOnChar_sep_append '/' "invite".toList _ (by decide),
    splitOnChar_sep_append '/' vid _ hv,
    splitOnChar_not_mem '/' sec hs]

theorem parseHash_five (hint vid sec : List Char)
    (hh : '/' ∉ hint) (hv : '/' ∉ vid) (hs : '/' ∉ sec)
    (hv0 : vid ≠ []) (hs0 : sec ≠ []) :
    parseHash ('#' :: '/' :: ("invite".toList ++ '/' :: (hint ++ '/' :: (vid ++ '/' :: sec))))
      = some ⟨vid, some hint, sec⟩ := by
  unfold parseHash
  rw [splitOnChar_invite_five hint vid sec hh hv hs]
  simp [hv0, hs0]

theorem parseHash_four (vid sec : List Char)
    (hv : '/' ∉ vid) (hs : '/' ∉ sec) (hv0 : vid ≠ []) (hs0 : sec ≠ []) :
    parseHash ('#' :: '/' :: ("invite".toList ++ '/' :: (vid ++ '/' :: sec)))
      = some ⟨vid, none, sec⟩ := by
  unfold parseHash
  rw [splitOnChar_invite_four vid sec hv hs]
  simp [hv0, hs0]

/-- C3: for every URL whose fragment has the 5-part form
`#/invite/<valueHint>/<valueID>/<inviteSecret>` (components slash-free,
valueID and inviteSecret nonempty) the parser returns the triple with the
hint, for the 4-part form `#/invite/<valueID>/<inviteSecret>` it returns
the pair with no hint, and for every URL whose split fragment does not
start with the parts "#", "invite" or has a number of parts other than 4
or 5 it returns `undefined`. -/
theorem parseInviteLink_spec :
    (∀ (base hint vid sec : List Char),
      '#' ∉ base → '/' ∉ hint → '/' ∉ vid → '/' ∉ sec → vid ≠ [] → sec ≠ [] →
      parseInviteLink
          (base ++ '#' :: '/' :: ("invite".toList ++ '/' :: (hint ++ '/' :: (vid ++ '/' :: sec))))
        = some ⟨vid, some hint, sec⟩
      ∧ parseInviteLink
          (base ++ '#' :: '/' :: ("invite".toList ++ '/' :: (vid ++ '/' :: sec)))
        = some ⟨vid, none, sec⟩)
    ∧ (∀ url : List Char,
        ((splitOnChar '/' (urlHash url)).head? ≠ some ['#']
          ∨ (splitOnChar '/' (urlHash url)).get? 1 ≠ some "invite".toList
          ∨ ((splitOnChar '/' (urlHash url)).length ≠ 4
              ∧ (splitOnChar '/' (urlHash url)).length ≠ 5)) →
        parseInviteLink url = none) := by
  constructor
  · intro base hint vid sec hb hh hv hs hv0 hs0
    constructor
    · have := urlHash_fragment base
        ('/' :: ("invite".toList ++ '/' :: (hint ++ '/' :: (vid ++ '/' :: sec)))) hb (by simp)
      unfold parseInviteLink
      rw [this]
      exact parseHash_five hint vid sec hh hv hs hv0 hs0
    · have := urlHash_fragment base
        ('/' :: ("invite".toList ++ '/' :: (vid ++ '/' :: sec))) hb (by simp)
      unfold parseInviteLink
      rw [this]
      exact parseHash_four vid sec hv hs hv0 hs0
  · intro url hcond
    cases hsplit : splitOnChar '/' (urlHash url) with
    | nil => simp [parseInviteLink, parseHash, hsplit]
    | cons p0 tail =>
        cases tail with
        | nil => simp [parseInviteLink, parseHash, hsplit]
        | cons p1 rest =>
            rw [hsplit] at hcond
            simp only [parseInviteLink, parseHash, hsplit]
            by_cases h01 : p0 = ['#'] ∧ p1 = "invite".toList
            · rcases hcond with hc | hc | hc
              · exact absurd (by rw [h01.1]; rfl) hc
              · exact absurd (by rw [h01.2]; rfl) hc
              · rw [if_pos h01]
                rcases rest with _ | ⟨a, _ | ⟨b, _ | ⟨c, _ | d⟩⟩⟩
                · rfl
                · rfl
                · exact (hc.1 (by simp)).elim
                · exact (hc.2 (by simp)).elim
                · rfl
            · rw [if_neg h01]

/-- Witness for C3 at a concrete URL with and without a hint. -/
theorem parseInviteLink_spec_witness :
    parseInviteLink
        ("https://app.example".toList ++ '#' :: '/'
          :: ("invite".toList ++ '/'
            :: ("myTeam".toList ++ '/' :: ("co_zabc".toList ++ '/' :: "inviteSecret_zxyz".toList))))
      = some ⟨"co_zabc".toList, some "myTeam".toList, "inviteSecret_zxyz".toList⟩ :=
  ((parseInviteLink_spec.1 "https://app.example".toList "myTeam".toList
      "co_zabc".toList "inviteSecret_zxyz".toList
      (by decide) (by decide) (by decide) (by decide) (by decide) (by decide))).1

/-- The WHATWG fragment percent-encode set: C0 controls and everything
above tilde (code points below 0x20 or above 0x7E, so DEL and all
non-ASCII), plus space, double quote, less-than, greater-than and backtick
(0x20, 0x22, 0x3C, 0x3E, 0x60). -/
def inFragmentEncodeSet (c : Char) : Bool :=
  c.toNat < 0x20 || c.toNat == 0x20 || c.toNat == 0x22 || c.toNat == 0x3C
    || c.toNat == 0x3E || c.toNat == 0x60 || 0x7E < c.toNat

/-- The UTF-8 bytes of a scalar value. -/
def utf8Bytes (c : Char) : List Nat :=
  let n := c.toNat
  if n < 0x80 then [n]
  else if n < 0x800 then [0xC0 + n / 64, 0x80 + n % 64]
  else if n < 0x10000 then [0xE0 + n / 4096, 0x80 + n / 64 % 64, 0x80 + n % 64]
  else [0xF0 + n / 262144, 0x80 + n / 4096 % 64, 0x80 + n / 64 % 64, 0x80 + n % 64]

/-- Uppercase hexadecimal digit, as the WHATWG serializer emits. -/
def hexDigit (n : Nat) : Char :=
  if n < 10 then Char.ofNat (48 + n) else Char.ofNat (55 + n)

/-- One percent-encoded byte, "%XY". -/
def percentEncodeByte (b : Nat) : List Char :=
  ['%', hexDigit (b / 16), hexDigit (b % 16)]

/-- One fragment character as serialized by `new URL().hash`: characters
of the encode set become the percent-encoding of their UTF-8 bytes, all
others pass through raw (in particular "%" itself, so already-encoded
fragments are fixed points). -/
def encodeFragmentChar (c : Char) : List Char :=
  if inFragmentEncodeSet c then (utf8Bytes c).flatMap percentEncodeByte
  else [c]

/-- The WHATWG fragment serialization applied by `new URL().hash`. -/
def fragmentPercentEncode (l : List Char) : List Char :=
  l.flatMap encodeFragmentChar

/-- `new URL(u).hash` on an arbitrary (not necessarily pre-encoded) URL
string: the raw fragment is extracted and then serialized with the
fragment percent-encoding. -/
def newURLHash (u : List Char) : List Char :=
  match urlHash u with
  | [] => []
  | c :: frag => c :: fragmentPercentEncode frag

/-- `parseInviteLink` as the browser evaluates it on a raw link string
such as a `createInviteLink` output: `new URL(inviteURL).hash`
percent-encodes the fragment before the split on "/". -/
def parseInviteLinkEncoded (inviteURL : List Char) : Option InviteParsed :=
  parseHash (newURLHash inviteURL)

theorem fragmentPercentEncode_encodeFree (l : List Char)
    (h : ∀ c ∈ l, inFragmentEncodeSet c = false) :
    fragmentPercentEncode l = l := by
  induction l with
  | nil => rfl
  | cons c rest ih =>
      have hc : inFragmentEncodeSet c = false := h c (List.mem_cons_self c rest)
      have hrest : fragmentPercentEncode rest = rest :=
        ih fun d hd => h d (List.mem_cons_of_mem c hd)
      show (c :: rest).flatMap encodeFragmentChar = c :: rest
      rw [List.flatMap_cons]
      rw [show encodeFragmentChar c = [c] from by simp [encodeFragmentChar, hc]]
      simpa using hrest

theorem newURLHash_of_urlHash (u frag : List Char)
    (h : urlHash u = '#' :: frag) :
    newURLHash u = '#' :: fragmentPercentEncode frag := by
  unfold newURLHash
  rw [h]

/-- On a URL whose raw fragment is free of to-be-encoded characters —
every genuine percent-encoded serialization — the browser parse coincides
with the raw-fragment parse used for C3. -/
theorem parseInviteLinkEncoded_eq_of_encodeFree (u : List Char)
    (h : ∀ c ∈ urlHash u, inFragmentEncodeSet c = false) :
    parseInviteLinkEncoded u = parseInviteLink u := by
  unfold parseInviteLinkEncoded parseInviteLink newURLHash
  cases hu : urlHash u with
  | nil => rfl
  | cons c frag =>
      show parseHash (c :: fragmentPercentEncode frag) = parseHash (c :: frag)
      rw [fragmentPercentEncode_encodeFree frag
        (fun d hd => h d (hu ▸ List.mem_cons_of_mem c hd))]

theorem inviteChars_encodeFree :
    ∀ c ∈ "invite".toList, inFragmentEncodeSet c = false := by decide

/-- C4 as frozen is refuted on two inputs inside its stated domain.  The
empty value hint is falsy in JS, so `createInviteLink` emits the 4-part
link and parsing returns an `undefined` hint instead of the given `""`.
And a hint containing a space — slash-free, as the claim demands — is
interpolated raw by `createInviteLink` but percent-encoded by
`new URL().hash` inside `parseInviteLink`, so it parses back as
"my%20team", not the same hint. -/
theorem createInviteLink_roundtrip_cex :
    (parseInviteLinkEncoded
        (createInviteLink "https://app.example".toList (some []) "co_zabc".toList
          "inviteSecret_zxyz".toList)
      = some ⟨"co_zabc".toList, none, "inviteSecret_zxyz".toList⟩
    ∧ (some (⟨"co_zabc".toList, none, "inviteSecret_zxyz".toList⟩ : InviteParsed)
        ≠ some ⟨"co_zabc".toList, some [], "inviteSecret_zxyz".toList⟩))
    ∧ (parseInviteLinkEncoded
        (createInviteLink "https://app.example".toList (some "my team".toList)
          "co_zabc".toList "inviteSecret_zxyz".toList)
      = some ⟨"co_zabc".toList, some "my%20team".toList, "inviteSecret_zxyz".toList⟩
    ∧ "my%20team".toList ≠ "my team".toList) := by
  refine ⟨⟨?_, ?_⟩, ?_, ?_⟩ <;> decide

/-- C4 (amended): for every base URL without "#", every nonempty
slash-free valueHint none of whose characters lie in the fragment
percent-encode set (or no hint at all), and every nonempty slash-free
valueID and inviteSecret likewise free of encoded characters — which
base58 IDs and secrets are — parsing the link produced by
`createInviteLink` returns exactly the valueID, the embedded secret, and
the same hint (`undefined` when none was given). -/
theorem createInviteLink_roundtrip :
    ∀ (base : List Char) (valueHint : Option (List Char)) (vid sec : List Char),
      '#' ∉ base →
      (∀ h, valueHint = some h →
        '/' ∉ h ∧ h ≠ [] ∧ ∀ c ∈ h, inFragmentEncodeSet c = false) →
      '/' ∉ vid → '/' ∉ sec → vid ≠ [] → sec ≠ [] →
      (∀ c ∈ vid, inFragmentEncodeSet c = false) →
      (∀ c ∈ sec, inFragmentEncodeSet c = false) →
      parseInviteLinkEncoded (createInviteLink base valueHint vid sec)
        = some ⟨vid, valueHint, sec⟩ := by
  intro base valueHint vid sec hb hhint hv hs hv0 hs0 hvf hsf
  cases valueHint with
  | none =>
      have hshape : createInviteLink base none vid sec
          = base ++ '#' :: '/' :: ("invite".toList ++ '/' :: (vid ++ '/' :: sec)) := by
        simp [createInviteLink]
      have hfree : ∀ c ∈ '/' :: ("invite".toList ++ '/' :: (vid ++ '/' :: sec)),
          inFragmentEncodeSet c = false := by
        intro c hc
        simp only [List.mem_cons, List.mem_append] at hc
        rcases hc with h | h | h | h | h | h
        · subst h; decide
        · exact inviteChars_encodeFree c h
        · subst h; decide
        · exact hvf c h
        · subst h; decide
        · exact hsf c h
      have hhash := urlHash_fragment base
        ('/' :: ("invite".toList ++ '/' :: (vid ++ '/' :: sec))) hb (by simp)
      rw [hshape]
      unfold parseInviteLinkEncoded
      rw [newURLHash_of_urlHash _ _ hhash, fragmentPercentEncode_encodeFree _ hfree]
      exact parseHash_four vid sec hv hs hv0 hs0
  | some hint =>
      obtain ⟨hh, hh0, hhf⟩ := hhint hint rfl
      have hshape : createInviteLink base (some hint) vid sec
          = base ++ '#' :: '/'
            :: ("invite".toList ++ '/' :: (hint ++ '/' :: (vid ++ '/' :: sec))) := by
        simp [createInviteLink, hh0]
      have hfree : ∀ c ∈ '/' :: ("invite".toList ++ '/' :: (hint ++ '/' :: (vid ++ '/' :: sec))),
          inFragmentEncodeSet c = false := by
        intro c hc
        simp only [List.mem_cons, List.mem_append] at hc
        rcases hc with h | h | h | h | h | h | h | h
        · subst h; decide
        · exact inviteChars_encodeFree c h
        · subst h; decide
        · exact hhf c h
        · subst h; decide
        · exact hvf c h
        · subst h; decide
        · exact hsf c h
      have hhash := urlHash_fragment base
        ('/' :: ("invite".toList ++ '/' :: (hint ++ '/' :: (vid ++ '/' :: sec)))) hb (by simp)
      rw [hshape]
      unfold parseInviteLinkEncoded
      rw [newURLHash_of_urlHash _ _ hhash, fragmentPercentEncode_encodeFree _ hfree]
      exact parseHash_five hint vid sec hh hv hs hv0 hs0

/-- Witness for C4 (amended) at a concrete link with a nonempty
encode-free hint. -/
theorem createInviteLink_roundtrip_witness :
    parseInviteLinkEncoded
        (createInviteLink "https://app.example".toList (some "myTeam".toList)
          "co_zabc".toList "inviteSecret_zxyz".toList)
      = some ⟨"co_zabc".toList, some "myTeam".toList, "inviteSecret_zxyz".toList⟩ :=
  createInviteLink_roundtrip "https://app.example".toList (some "myTeam".toList)
    "co_zabc".toList "inviteSecret_zxyz".toList
    (by decide) (fun h hh => by cases hh; exact ⟨by decide, by decide, by decide⟩)
    (by decide) (by decide) (by decide) (by decide) (by decide) (by decide)

/-! ## Binary stream creation (source: `createBinaryStreamFromBlob`)

The source reads the blob bytes with a `FileReader`, calls
`startBinaryStream({mimeType: blob.type, totalSizeBytes: blob.size,
fileName})`, pushes `data.slice(idx, idx + chunkSize)` for
`idx = 0, chunkSize, 2*chunkSize, ...` with
`chunkSize = MAX_RECOMMENDED_TX_SIZE`, and finally calls
`endBinaryStream()` before resolving.  A blob is embedded as its mime
type, its byte list (`blob.size` is the byte count), and an optional file
name (`none` for a plain `Blob`, `some name` for a `File`).  The calls
made on the covalue stream are embedded as an item list. -/

/-- Modelled from the spec: the `MAX_RECOMMENDED_TX_SIZE` constant lives in
the cojson package, which is not part of the sources here; the spec caps
chunk sizes at about 100 KiB. -/
def MAX_RECOMMENDED_TX_SIZE : Nat := 102400

structure JsBlob where
  mimeType : String
  data : List Nat
  fileName : Option String
deriving DecidableEq, Repr

/-- `blob.size`: the byte count of the blob. -/
def JsBlob.size (b : JsBlob) : Nat := b.data.length

inductive BinaryStreamItem where
  | start (mimeType : String) (totalSizeBytes : Nat) (fileName : Option String)
  | chunk (bytes : List Nat)
  | endMarker
deriving DecidableEq, Repr

/-- The slicing loop `for (idx = 0; idx < data.length; idx += chunkSize)
push(data.slice(idx, idx + chunkSize))`. -/
def binaryChunks (l : List Nat) : List (List Nat) :=
  match l with
  | [] => []
  | a :: rest =>
      (a :: rest).take MAX_RECOMMENDED_TX_SIZE
        :: binaryChunks ((a :: rest).drop MAX_RECOMMENDED_TX_SIZE)
termination_by l.length
decreasing_by
  simp only [List.length_drop, List.length_cons]
  have : 0 < MAX_RECOMMENDED_TX_SIZE := by decide
  omega

def createBinaryStreamFromBlob (blob : JsBlob) : List BinaryStreamItem :=
  BinaryStreamItem.start blob.mimeType blob.size blob.fileName
    :: ((binaryChunks blob.data).map BinaryStreamItem.chunk
      ++ [BinaryStreamItem.endMarker])

/-- The chunk payloads of a stream item list, in push order. -/
def streamChunks (items : List BinaryStreamItem) : List (List Nat) :=
  items.filterMap fun it =>
    match it with
    | .chunk c => some c
    | _ => none

theorem binaryChunks_flatten (l : List Nat) : (binaryChunks l).flatten = l := by
  have H : ∀ (n : Nat) (l : List Nat), l.length = n → (binaryChunks l).flatten = l := by
    intro n
    induction n using Nat.strong_induction_on with
    | _ n ih =>
        intro l hn
        cases l with
        | nil => simp [binaryChunks]
        | cons a rest =>
            rw [binaryChunks]
            have hlt : ((a :: rest).drop MAX_RECOMMENDED_TX_SIZE).length < n := by
              subst hn
              simp only [List.length_drop, List.length_cons]
              have : 0 < MAX_RECOMMENDED_TX_SIZE := by decide
              omega
            simp only [List.flatten_cons,
              ih _ hlt ((a :: rest).drop MAX_RECOMMENDED_TX_SIZE) rfl,
              List.take_append_drop]
  exact H l.length l rfl

theorem binaryChunks_length_le (l : List Nat) (c : List Nat)
    (hc : c ∈ binaryChunks l) : c.length ≤ MAX_RECOMMENDED_TX_SIZE := by
  have H : ∀ (n : Nat) (l : List Nat), l.length = n →
      ∀ c, c ∈ binaryChunks l → c.length ≤ MAX_RECOMMENDED_TX_SIZE := by
    intro n
    induction n using Nat.strong_induction_on with
    | _ n ih =>
        intro l hn c hc
        cases l with
        | nil => simp [binaryChunks] at hc
        | cons a rest =>
            rw [binaryChunks] at hc
            have hlt : ((a :: rest).drop MAX_RECOMMENDED_TX_SIZE).length < n := by
              subst hn
              simp only [List.length_drop, List.length_cons]
              have : 0 < MAX_RECOMMENDED_TX_SIZE := by decide
              omega
            rcases List.mem_cons.mp hc with h | h
            · subst h
              exact List.length_take_le MAX_RECOMMENDED_TX_SIZE (a :: rest)
            · exact ih _ hlt _ rfl c h
  exact H l.length l rfl c hc

theorem streamChunks_create (blob : JsBlob) :
    streamChunks (createBinaryStreamFromBlob blob) = binaryChunks blob.data := by
  simp only [streamChunks, createBinaryStreamFromBlob, List.filterMap_cons,
    List.filterMap_append, List.filterMap_map]
  have hcomp : ((fun it =>
      match it with
      | BinaryStreamItem.chunk c => some c
      | _ => none) ∘ BinaryStreamItem.chunk) = some := rfl
  rw [hcomp, List.filterMap_some]
  simp

/-- C7: the stream produced from a blob starts with the
`{mimeType, totalSizeBytes, fileName}` opener, every pushed chunk has at
most `MAX_RECOMMENDED_TX_SIZE` bytes, the chunks concatenated in push
order are exactly the blob bytes, and the stream ends with the end
marker. -/
theorem createBinaryStreamFromBlob_spec :
    ∀ blob : JsBlob,
      (createBinaryStreamFromBlob blob).head?
        = some (.start blob.mimeType blob.data.length blob.fileName)
      ∧ (∀ c, c ∈ streamChunks (createBinaryStreamFromBlob blob) →
          c.length ≤ MAX_RECOMMENDED_TX_SIZE)
      ∧ (streamChunks (createBinaryStreamFromBlob blob)).flatten = blob.data
      ∧ (createBinaryStreamFromBlob blob).getLast? = some .endMarker := by
  intro blob
  refine ⟨rfl, ?_, ?_, ?_⟩
  · intro c hc
    rw [streamChunks_create] at hc
    exact binaryChunks_length_le blob.data c hc
  · rw [streamChunks_create]
    exact binaryChunks_flatten blob.data
  · rw [createBinaryStreamFromBlob, ← List.cons_append, List.getLast?_concat]

/-- Witness for C7: a three-byte blob yields a single chunk of length
3 ≤ MAX_RECOMMENDED_TX_SIZE, and the opener carries its metadata. -/
theorem createBinaryStreamFromBlob_spec_witness :
    (createBinaryStreamFromBlob ⟨"text/plain", [104, 105, 33], none⟩).head?
      = some (.start "text/plain" 3 none)
    ∧ [104, 105, 33].length ≤ MAX_RECOMMENDED_TX_SIZE := by
  have hmem : [104, 105, 33]
      ∈ streamChunks (createBinaryStreamFromBlob ⟨"text/plain", [104, 105, 33], none⟩) := by
    rw [streamChunks_create]
    rw [binaryChunks]
    have ht : ([104, 105, 33] : List Nat).take MAX_RECOMMENDED_TX_SIZE = [104, 105, 33] :=
      List.take_of_length_le (by decide)
    have hd : ([104, 105, 33] : List Nat).drop MAX_RECOMMENDED_TX_SIZE = [] :=
      List.drop_eq_nil_of_le (by decide)
    rw [ht, hd, binaryChunks]
    exact List.mem_singleton.mpr rfl
  exact ⟨(createBinaryStreamFromBlob_spec ⟨"text/plain", [104, 105, 33], none⟩).1,
    (createBinaryStreamFromBlob_spec ⟨"text/plain", [104, 105, 33], none⟩).2.1
      [104, 105, 33] hmem⟩

/-! ## Transaction and key-secret encryption, sealing (cojson crypto)

Modelled from the spec: the cojson crypto implementation is not among the
sources here (only its tests are), so the AEAD primitives are embedded
symbolically, in the ideal-cipher style.  A ciphertext is a record binding
the plaintext to the key and nonce material it was produced under;
decryption compares the supplied key and nonce material against the bound
ones (the MAC check) and reveals the plaintext only on a match.  Per the
spec, `decryptForTransaction` and `decryptKeySecret` return `undefined` on
a MAC failure while `unseal` raises `Wrong tag`. -/

structure TxNonceMaterial where
  inCo : String
  sessionID : String
  txIndex : Nat
deriving DecidableEq, Repr

structure TxCiphertext where
  boundPlaintext : String
  boundKeySecret : String
  boundNonce : TxNonceMaterial
deriving DecidableEq, Repr

/-- Modelled from the spec:
`encryptForTransaction(changes, keySecret, nonceMaterial) → ciphertext`,
XSalsa20-Poly1305 under a nonce derived from the nonce material. -/
def encryptForTransaction (changes keySecret : String) (n : TxNonceMaterial) :
    TxCiphertext :=
  ⟨changes, keySecret, n⟩

/-- Modelled from the spec: decrypt returns `undefined` on MAC failure
(no exception). -/
def decryptForTransaction (c : TxCiphertext) (keySecret : String)
    (n : TxNonceMaterial) : Option String :=
  if c.boundKeySecret = keySecret ∧ c.boundNonce = n then some c.boundPlaintext
  else none

/-- A `{secret, id}` pair as produced by `newRandomKeySecret`. -/
structure KeyPair where
  id : String
  secret : String
deriving DecidableEq, Repr

structure WrappedKeySecret where
  boundSecret : String
  boundEncryptingSecret : String
  encryptedID : String
deriving DecidableEq, Repr

/-- Modelled from the spec:
`encryptKeySecret({toEncrypt, encrypting}) → wrapped`. -/
def encryptKeySecret (toEncrypt encrypting : KeyPair) : WrappedKeySecret :=
  ⟨toEncrypt.secret, encrypting.secret, toEncrypt.id⟩

/-- Modelled from the spec:
`decryptKeySecret(wrapped, encrypting) → secret | undefined`. -/
def decryptKeySecret (w : WrappedKeySecret) (keySecret : String) :
    Option String :=
  if w.boundEncryptingSecret = keySecret then some w.boundSecret else none

/-- A sealer public identity; the wrapped secret stands for the X25519
public key deterministically derived from it. -/
structure SealerID where
  ofSecret : String
deriving DecidableEq, Repr

/-- Modelled from the spec: `getSealerID`, the public half of a sealer
keypair (symbolically, the injective tagging of the secret). -/
def getSealerID (sealerSecret : String) : SealerID := ⟨sealerSecret⟩

structure SealedMessage where
  boundPlaintext : String
  senderID : SealerID
  receiverID : SealerID
  boundNonce : TxNonceMaterial
deriving DecidableEq, Repr

/-- Modelled from the spec:
`seal({message, from, to, nonceMaterial}) → sealed_U<base64url>`, an AEAD
box under the X25519 shared secret of sender and receiver. -/
def sealMessage (message fromSecret : String) (toID : SealerID) (n : TxNonceMaterial) :
    SealedMessage :=
  ⟨message, getSealerID fromSecret, toID, n⟩

/-- Modelled from the spec: `unseal(...) → message | fail("Wrong tag")`;
the shared secret matches exactly when the receiver secret and the sender
identity agree with the sealed box. -/
def unsealMessage (s : SealedMessage) (receiverSecret : String) (sender : SealerID)
    (n : TxNonceMaterial) : Except String String :=
  if getSealerID receiverSecret = s.receiverID ∧ sender = s.senderID
      ∧ n = s.boundNonce
  then .ok s.boundPlaintext
  else .error "Wrong tag"

/-- C8: decrypting attacker-controllable ciphertext with a wrong key
returns `undefined` instead of raising — for transaction encryption and
for key-secret wrapping — while `unseal` under a wrong sealer secret
raises the `Wrong tag` error. -/
theorem decrypt_wrong_key_behaviour :
    ∀ (m k k2 : String) (n : TxNonceMaterial) (toEncrypt encrypting encryptingWrong : KeyPair)
      (msg senderSecret receiverSecret wrongReceiverSecret : String),
      (k2 ≠ k →
        decryptForTransaction (encryptForTransaction m k n) k2 n = none)
      ∧ (encryptingWrong.secret ≠ encrypting.secret →
          decryptKeySecret (encryptKeySecret toEncrypt encrypting) encryptingWrong.secret
            = none)
      ∧ (wrongReceiverSecret ≠ receiverSecret →
          unsealMessage (sealMessage msg senderSecret (getSealerID receiverSecret) n)
              wrongReceiverSecret (getSealerID senderSecret) n
            = .error "Wrong tag")
      ∧ decryptForTransaction (encryptForTransaction m k n) k n = some m := by
  intro m k k2 n toEncrypt encrypting encryptingWrong msg senderSecret
    receiverSecret wrongReceiverSecret
  refine ⟨?_, ?_, ?_, ?_⟩
  · intro h
    have hne : ¬ (k = k2) := fun hk => h hk.symm
    simp [decryptForTransaction, encryptForTransaction, hne]
  · intro h
    have hne : ¬ (encrypting.secret = encryptingWrong.secret) := fun hk => h hk.symm
    simp [decryptKeySecret, encryptKeySecret, hne]
  · intro h
    have : getSealerID wrongReceiverSecret ≠ getSealerID receiverSecret := by
      simpa [getSealerID] using h
    simp [unsealMessage, sealMessage, this]
  · simp [decryptForTransaction, encryptForTransaction]

/-- Witness for C8 with concrete distinct keys. -/
theorem decrypt_wrong_key_behaviour_witness :
    decryptForTransaction
        (encryptForTransaction "changes" "keySecret_zA" ⟨"co_zTEST", "co_zTEST_session_zTEST", 0⟩)
        "keySecret_zB" ⟨"co_zTEST", "co_zTEST_session_zTEST", 0⟩ = none
    ∧ unsealMessage
        (sealMessage "msg" "sealerSecret_zS" (getSealerID "sealerSecret_zR")
          ⟨"co_zTEST", "co_zTEST_session_zTEST", 0⟩)
        "sealerSecret_zW" (getSealerID "sealerSecret_zS")
        ⟨"co_zTEST", "co_zTEST_session_zTEST", 0⟩ = .error "Wrong tag" :=
  ⟨(decrypt_wrong_key_behaviour "changes" "keySecret_zA" "keySecret_zB"
      ⟨"co_zTEST", "co_zTEST_session_zTEST", 0⟩ ⟨"", ""⟩ ⟨"", ""⟩ ⟨"", ""⟩
      "msg" "sealerSecret_zS" "sealerSecret_zR" "sealerSecret_zW").1 (by decide),
   (decrypt_wrong_key_behaviour "changes" "keySecret_zA" "keySecret_zB"
      ⟨"co_zTEST", "co_zTEST_session_zTEST", 0⟩ ⟨"", ""⟩ ⟨"", ""⟩ ⟨"", ""⟩
      "msg" "sealerSecret_zS" "sealerSecret_zR" "sealerSecret_zW").2.2.1 (by decide)⟩

/-! ## Passphrase auth provider (source: `jazz-browser-auth-passphrase`)

`logIn` derives `accountSecretSeed = bip39.mnemonicToEntropy(passphrase,
wordlist)`, `accountSecret = agentSecretFromSecretSeed(seed)`, and
`accountID = idforHeader(accountHeaderForInitialAgentSecret(accountSecret))`.
`signUp` derives the same seed and secret and creates the account with
`LocalNode.withNewlyCreatedAccount({initialAgentSecret})`.  The cojson
primitives live outside these sources and are passed as an explicit record
of deterministic functions. -/

structure CojsonPrimitives where
  mnemonicToEntropy : String → List String → Option (List Nat)
  agentSecretFromSecretSeed : List Nat → String
  accountHeaderForInitialAgentSecret : String → String
  idforHeader : String → String

structure AuthIdentity where
  accountID : String
  accountSecret : String
deriving DecidableEq, Repr

/-- The identity part of `logIn`: entropy from the passphrase, agent
secret from the entropy, account ID as the content address of the account
header for that secret.  `none` models the throw on an invalid passphrase
or a falsy account secret. -/
def logIn (P : CojsonPrimitives) (wordlist : List String) (passphrase : String) :
    Option AuthIdentity :=
  match P.mnemonicToEntropy passphrase wordlist with
  | none => none
  | some seed =>
      let accountSecret := P.agentSecretFromSecretSeed seed
      if accountSecret = "" then none
      else some ⟨P.idforHeader (P.accountHeaderForInitialAgentSecret accountSecret),
        accountSecret⟩

/-- Modelled from the spec: `LocalNode.withNewlyCreatedAccount` with a
supplied `initialAgentSecret` returns that secret as `accountSecret`, and
the account covalue ID is content-addressed — the hash of the account
header built from the initial agent secret (spec invariant 1 and the
account header construction used by `logIn`). -/
def withNewlyCreatedAccountIdentity (P : CojsonPrimitives)
    (initialAgentSecret : String) : AuthIdentity :=
  ⟨P.idforHeader (P.accountHeaderForInitialAgentSecret initialAgentSecret),
    initialAgentSecret⟩

/-- The identity part of `signUp`: same entropy derivation, then account
creation from the derived initial agent secret.  The username only names
the profile. -/
def signUp (P : CojsonPrimitives) (wordlist : List String)
    (username passphrase : String) : Option AuthIdentity :=
  match P.mnemonicToEntropy passphrase wordlist with
  | none => none
  | some seed =>
      some (withNewlyCreatedAccountIdentity P (P.agentSecretFromSecretSeed seed))

/-- C10: for a passphrase valid under the wordlist, the account identity is
a deterministic function of the passphrase: `logIn` resolves the secret
derived from the bip39 entropy and the content-addressed account ID, and a
`signUp` with the same passphrase — under any username — yields the same
identity, so repeated `logIn` runs and `logIn` after `signUp` agree. -/
theorem passphrase_identity_deterministic :
    ∀ (P : CojsonPrimitives) (wordlist : List String)
      (passphrase username username2 : String) (seed : List Nat),
      P.mnemonicToEntropy passphrase wordlist = some seed →
      P.agentSecretFromSecretSeed seed ≠ "" →
      ∃ r : AuthIdentity,
        logIn P wordlist passphrase = some r
        ∧ signUp P wordlist username passphrase = some r
        ∧ signUp P wordlist username2 passphrase = some r
        ∧ r.accountSecret = P.agentSecretFromSecretSeed seed
        ∧ r.accountID
            = P.idforHeader (P.accountHeaderForInitialAgentSecret r.accountSecret) := by
  intro P wordlist passphrase username username2 seed hseed hsecret
  refine ⟨⟨P.idforHeader (P.accountHeaderForInitialAgentSecret
      (P.agentSecretFromSecretSeed seed)), P.agentSecretFromSecretSeed seed⟩,
    ?_, ?_, ?_, rfl, rfl⟩
  · simp [logIn, hseed, hsecret]
  · simp [signUp, hseed, withNewlyCreatedAccountIdentity]
  · simp [signUp, hseed, withNewlyCreatedAccountIdentity]

/-- Witness for C10 with concrete primitives. -/
theorem passphrase_identity_deterministic_witness :
    ∃ r : AuthIdentity,
      logIn ⟨fun p wl => if p ∈ wl then some [7] else none,
          fun seed => "secret_" ++ toString seed.length,
          fun s => "header:" ++ s, fun h => "co_z" ++ h⟩
        ["correct horse battery staple"] "correct horse battery staple" = some r
      ∧ signUp ⟨fun p wl => if p ∈ wl then some [7] else none,
          fun seed => "secret_" ++ toString seed.length,
          fun s => "header:" ++ s, fun h => "co_z" ++ h⟩
        ["correct horse battery staple"] "alice" "correct horse battery staple" = some r
      ∧ signUp ⟨fun p wl => if p ∈ wl then some [7] else none,
          fun seed => "secret_" ++ toString seed.length,
          fun s => "header:" ++ s, fun h => "co_z" ++ h⟩
        ["correct horse battery staple"] "bob" "correct horse battery staple" = some r
      ∧ r.accountSecret = "secret_1"
      ∧ r.accountID = "co_z" ++ ("header:" ++ r.accountSecret) := by
  have h := passphrase_identity_deterministic
    ⟨fun p wl => if p ∈ wl then some [7] else none,
      fun seed => "secret_" ++ toString seed.length,
      fun s => "header:" ++ s, fun h => "co_z" ++ h⟩
    ["correct horse battery staple"] "correct horse battery staple"
    "alice" "bob" [7] (by simp) (by decide)
  simpa using h

/-! ## Signatures over canonicalized JSON (cojson crypto)

Modelled from the spec: the Ed25519 implementation is not among the
sources here, so signatures are embedded symbolically — a signature is the
pair of the signer identity and the canonical form of the signed payload,
and verification compares both.  The canonical encoding (spec section on
canonical encoding) sorts object keys lexicographically at every depth and
leaves arrays in order; it is applied to the payload before hashing, which
is what makes verification insensitive to object-key insertion order. -/

inductive JsonV where
  | str (s : String)
  | num (n : Int)
  | boolean (b : Bool)
  | null
  | arr (elems : List JsonV)
  | obj (fields : List (String × JsonV))

mutual
def decEqJsonV (a b : JsonV) : Decidable (a = b) :=
  match a, b with
  | .str s, .str t => decidable_of_iff (s = t) (by simp)
  | .num n, .num m => decidable_of_iff (n = m) (by simp)
  | .boolean c, .boolean d => decidable_of_iff (c = d) (by simp)
  | .null, .null => isTrue rfl
  | .arr xs, .arr ys =>
      haveI := decEqJsonList xs ys
      decidable_of_iff (xs = ys) (by simp)
  | .obj fs, .obj gs =>
      haveI := decEqJsonFields fs gs
      decidable_of_iff (fs = gs) (by simp)
  | .str _, .num _ | .str _, .boolean _ | .str _, .null | .str _, .arr _ | .str _, .obj _
  | .num _, .str _ | .num _, .boolean _ | .num _, .null | .num _, .arr _ | .num _, .obj _
  | .boolean _, .str _ | .boolean _, .num _ | .boolean _, .null | .boolean _, .arr _ | .boolean _, .obj _
  | .null, .str _ | .null, .num _ | .null, .boolean _ | .null, .arr _ | .null, .obj _
  | .arr _, .str _ | .arr _, .num _ | .arr _, .boolean _ | .arr _, .null | .arr _, .obj _
  | .obj _, .str _ | .obj _, .num _ | .obj _, .boolean _ | .obj _, .null | .obj _, .arr _ =>
      isFalse (by simp)
def decEqJsonList (a b : List JsonV) : Decidable (a = b) :=
  match a, b with
  | [], [] => isTrue rfl
  | [], _ :: _ => isFalse (by simp)
  | _ :: _, [] => isFalse (by simp)
  | x :: xs, y :: ys =>
      haveI := decEqJsonV x y
      haveI := decEqJsonList xs ys
      decidable_of_iff (x = y ∧ xs = ys) (by simp)
def decEqJsonFields (a b : List (String × JsonV)) : Decidable (a = b) :=
  match a, b with
  | [], [] => isTrue rfl
  | [], _ :: _ => isFalse (by simp)
  | _ :: _, [] => isFalse (by simp)
  | (k, v) :: fs, (l, w) :: gs =>
      haveI := decEqJsonV v w
      haveI := decEqJsonFields fs gs
      decidable_of_iff (k = l ∧ v = w ∧ fs = gs) (by simp [and_assoc])
end

instance : DecidableEq JsonV := decEqJsonV

/-- Object fields ordered by key: the sort order of the canonical
encoding. -/
def fieldKeyLE (p q : String × JsonV) : Prop := p.1 ≤ q.1

instance : DecidableRel fieldKeyLE :=
  fun p q => inferInstanceAs (Decidable (p.1 ≤ q.1))

instance : IsTotal (String × JsonV) fieldKeyLE := ⟨fun a b => le_total a.1 b.1⟩

instance : IsTrans (String × JsonV) fieldKeyLE := ⟨fun _ _ _ h1 h2 => le_trans h1 h2⟩

def sortFields (fs : List (String × JsonV)) : List (String × JsonV) :=
  List.insertionSort fieldKeyLE fs

mutual
def canonicalize : JsonV → JsonV
  | .str s => .str s
  | .num n => .num n
  | .boolean b => .boolean b
  | .null => .null
  | .arr xs => .arr (canonList xs)
  | .obj fs => .obj (sortFields (canonFields fs))
def canonList : List JsonV → List JsonV
  | [] => []
  | x :: xs => canonicalize x :: canonList xs
def canonFields : List (String × JsonV) → List (String × JsonV)
  | [] => []
  | (k, v) :: fs => (k, canonicalize v) :: canonFields fs
end

theorem canonFields_eq_map (fs : List (String × JsonV)) :
    canonFields fs = fs.map (fun p => (p.1, canonicalize p.2)) := by
  induction fs with
  | nil => simp [canonFields]
  | cons p fs ih => cases p; simp [canonFields, ih]

theorem canonFields_keys (fs : List (String × JsonV)) :
    (canonFields fs).map Prod.fst = fs.map Prod.fst := by
  rw [canonFields_eq_map]
  simp

theorem canonFields_perm (fs gs : List (String × JsonV)) (h : fs.Perm gs) :
    (canonFields fs).Perm (canonFields gs) := by
  rw [canonFields_eq_map, canonFields_eq_map]
  exact h.map _

/-- Strict key order, used to turn sortedness plus distinct keys into
uniqueness of the sorted form. -/
def fieldKeyLT (p q : String × JsonV) : Prop := p.1 < q.1

instance : IsAntisymm (String × JsonV) fieldKeyLT :=
  ⟨fun _ _ h1 h2 => (lt_asymm h1 h2).elim⟩

theorem sorted_fieldKeyLT (l : List (String × JsonV))
    (hs : l.Sorted fieldKeyLE) (hnd : (l.map Prod.fst).Nodup) :
    l.Sorted fieldKeyLT := by
  have hp : l.Pairwise (fun a b : String × JsonV => a.1 ≠ b.1) :=
    List.pairwise_map.mp hnd
  exact (List.Pairwise.and hs hp).imp fun h => lt_of_le_of_ne h.1 h.2

theorem sortFields_eq_of_perm (fs gs : List (String × JsonV))
    (hperm : fs.Perm gs) (hnd : (fs.map Prod.fst).Nodup) :
    sortFields fs = sortFields gs := by
  have hp : (sortFields fs).Perm (sortFields gs) :=
    (List.perm_insertionSort fieldKeyLE fs).trans
      (hperm.trans (List.perm_insertionSort fieldKeyLE gs).symm)
  have hndf : ((sortFields fs).map Prod.fst).Nodup :=
    (((List.perm_insertionSort fieldKeyLE fs).map Prod.fst).nodup_iff).mpr hnd
  have hndg : ((sortFields gs).map Prod.fst).Nodup :=
    (((List.perm_insertionSort fieldKeyLE gs).map Prod.fst).nodup_iff).mpr
      (((hperm.map Prod.fst).nodup_iff).mp hnd)
  exact List.eq_of_perm_of_sorted hp
    (sorted_fieldKeyLT _ (List.sorted_insertionSort fieldKeyLE fs) hndf)
    (sorted_fieldKeyLT _ (List.sorted_insertionSort fieldKeyLE gs) hndg)

theorem canonicalize_obj_eq_of_perm (fs gs : List (String × JsonV))
    (hperm : fs.Perm gs) (hnd : (fs.map Prod.fst).Nodup) :
    canonicalize (.obj fs) = canonicalize (.obj gs) := by
  simp only [canonicalize]
  exact congrArg JsonV.obj
    (sortFields_eq_of_perm _ _ (canonFields_perm fs gs hperm)
      (by rw [canonFields_keys]; exact hnd))

structure SignerID where
  ofSecret : String
deriving DecidableEq, Repr

/-- Modelled from the spec: `getSignerID`, the Ed25519 public half of a
signer keypair (symbolically, the injective tagging of the secret). -/
def getSignerID (signerSecret : String) : SignerID := ⟨signerSecret⟩

structure JsonSignature where
  signedBy : SignerID
  signedPayload : JsonV
deriving DecidableEq

/-- Modelled from the spec:
`sign(signerSecret, payload) → signature_z<base58>`; the payload is
canonicalized before hashing and signing. -/
def sign (signerSecret : String) (payload : JsonV) : JsonSignature :=
  ⟨getSignerID signerSecret, canonicalize payload⟩

/-- Modelled from the spec:
`verify(sig, payload, signerID) → bool`; the payload is canonicalized
before the comparison against the signed hash. -/
def verify (sig : JsonSignature) (payload : JsonV) (id : SignerID) : Bool :=
  decide (sig.signedBy = id ∧ sig.signedPayload = canonicalize payload)

/-- C9: a signature round-trips under the signer identity; it still
verifies against the payload with its object keys in a different insertion
order, because the payload is canonicalized before hashing; and under any
other signer identity — or for a signature made by another signer —
verification is false. -/
theorem sign_verify_canonicalization :
    ∀ (k k2 : String) (x : JsonV) (fs gs : List (String × JsonV)),
      verify (sign k x) x (getSignerID k) = true
      ∧ (fs.Perm gs → (fs.map Prod.fst).Nodup →
          verify (sign k (.obj fs)) (.obj gs) (getSignerID k) = true)
      ∧ (k ≠ k2 → verify (sign k x) x (getSignerID k2) = false)
      ∧ (k ≠ k2 → verify (sign k2 x) x (getSignerID k) = false) := by
  intro k k2 x fs gs
  refine ⟨?_, ?_, ?_, ?_⟩
  · simp [verify, sign]
  · intro hperm hnd
    simp only [verify, sign, decide_eq_true_eq]
    exact ⟨trivial, canonicalize_obj_eq_of_perm fs gs hperm hnd⟩
  · intro h
    simp [verify, sign, getSignerID, h]
  · intro h
    have h2 : ¬ (k2 = k) := fun hk => h hk.symm
    simp [verify, sign, getSignerID, h2]

/-- Witness for C9: the test payload `{b: "world", a: "hello"}` verifies
with its keys reordered, and a wrong signer identity fails. -/
theorem sign_verify_canonicalization_witness :
    verify
        (sign "signerSecret_zA" (.obj [("b", .str "world"), ("a", .str "hello")]))
        (.obj [("a", .str "hello"), ("b", .str "world")])
        (getSignerID "signerSecret_zA") = true
    ∧ verify
        (sign "signerSecret_zA" (.str "m")) (.str "m")
        (getSignerID "signerSecret_zB") = false :=
  ⟨(sign_verify_canonicalization "signerSecret_zA" "signerSecret_zB" (.str "m")
      [("b", .str "world"), ("a", .str "hello")]
      [("a", .str "hello"), ("b", .str "world")]).2.1
      (List.Perm.swap (("a", JsonV.str "hello")) (("b", JsonV.str "world"))
        ([] : List (String × JsonV))) (by decide),
   (sign_verify_canonicalization "signerSecret_zA" "signerSecret_zB" (.str "m")
      [("b", .str "world"), ("a", .str "hello")]
      [("a", .str "hello"), ("b", .str "world")]).2.2.1 (by decide)⟩

end Jazz
